import Mathlib

/-!
Verification development for the tiptap-redlines-extension core
(src/index.ts). The code is shallowly embedded:

* marks are identified by their type name, as in the source
  (comparisons are always on mark.type.name);
* ProseMirror fragments are embedded as the mutual inductive
  PMNode / PMFrag (text leaves carry a length and a mark list, element
  nodes carry a content fragment and a mark list; nodeSize of an element
  is its content size plus 2, as in ProseMirror);
* the transaction-rewriting hook (onTransaction) and the accept/reject
  resolver (changeTrack) work, in the scenarios modelled here, inside a
  single text block, so the operational document state is embedded at
  character granularity: a document is a list of per-character mark
  lists, and ReplaceStep / addMark / removeMark are list splices and
  range maps.  All the document operations the code issues are
  position-based, so this view is faithful for inline content.
-/

/-- Mark type name of the deletion mark (source line 8). -/
def MARK_DELETION : String := "deletion"

/-- Mark type name of the insertion mark (source line 9). -/
def MARK_INSERTION : String := "insertion"

/-- Extension storage (source `TrackChangeStorage`, lines 107-112).  The
optional `onStatusChange` callback is modelled by a presence flag; an
invocation of the callback is recorded as the Bool value passed to it. -/
structure TrackChangeStorage where
  enabled : Bool
  dataOpUserId : String
  dataOpUserNickname : String
  hasOnStatusChange : Bool

/-- Minute timestamp computation (source line 105):
`Math.round(new Date().getTime() / 1000 / 60) * 1000 * 60`.
The JS computation divides the epoch-millisecond time by 60000 and applies
`Math.round`, which for nonnegative x equals floor(x + 1/2); over the
exact rationals that is `(t + 30000) / 60000` in floor division.  The
embedding uses exact natural arithmetic. -/
def getMinuteTime (nowMs : Nat) : Nat :=
  ((nowMs + 30000) / 60000) * 60000

/-- Attributes attached to a newly created insertion or deletion mark. -/
structure MarkAttrs where
  dataOpUserId : String
  dataOpUserNickname : String
  dataOpDate : Nat

/-- Attributes of the insertion mark created at source lines 355-359. -/
def mkInsertionMarkAttrs (s : TrackChangeStorage) (nowMs : Nat) : MarkAttrs :=
  ⟨s.dataOpUserId, s.dataOpUserNickname, getMinuteTime nowMs⟩

/-- Attributes of the deletion mark created at source lines 406-410. -/
def mkDeletionMarkAttrs (s : TrackChangeStorage) (nowMs : Nat) : MarkAttrs :=
  ⟨s.dataOpUserId, s.dataOpUserNickname, getMinuteTime nowMs⟩

/-- The spec's reading of the timestamp: the epoch time rounded DOWN to
the whole minute, in milliseconds. -/
def floorMinuteMs (nowMs : Nat) : Nat :=
  (nowMs / 60000) * 60000

/-- Status callback invocations fired by `onCreate` (source lines 214-218). -/
def onCreateCalls (s : TrackChangeStorage) : List Bool :=
  if s.hasOnStatusChange then [s.enabled] else []

/-- Command `setTrackChangeStatus` (source lines 226-233): returns the
updated storage together with the list of status-callback invocations. -/
def setTrackChangeStatusModel (s : TrackChangeStorage) (enabled : Bool) :
    TrackChangeStorage × List Bool :=
  (⟨enabled, s.dataOpUserId, s.dataOpUserNickname, s.hasOnStatusChange⟩,
   if s.hasOnStatusChange then [enabled] else [])

/-- Command `toggleTrackChangeStatus` (source lines 234-241). -/
def toggleTrackChangeStatusModel (s : TrackChangeStorage) :
    TrackChangeStorage × List Bool :=
  (⟨!s.enabled, s.dataOpUserId, s.dataOpUserNickname, s.hasOnStatusChange⟩,
   if s.hasOnStatusChange then [!s.enabled] else [])

/-- A storage value used in concrete evaluations. -/
def sampleStorage : TrackChangeStorage :=
  ⟨true, "u1", "Ann", false⟩

/-! ## ProseMirror fragment model

`PMNode.text len marks` embeds a text leaf of length `len`;
`PMNode.elem content marks` embeds an element node whose `nodeSize` is
its content size plus 2, as in ProseMirror.  `PMFrag` is a fragment
(list of child nodes). -/

mutual
inductive PMNode where
  | text (len : Nat) (marks : List String) : PMNode
  | elem (content : PMFrag) (marks : List String) : PMNode
inductive PMFrag where
  | nil : PMFrag
  | cons (hd : PMNode) (tl : PMFrag) : PMFrag
end

mutual
def nodeSize : PMNode → Nat
  | .text len _ => len
  | .elem c _ => fragSize c + 2
def fragSize : PMFrag → Nat
  | .nil => 0
  | .cons n rest => nodeSize n + fragSize rest
end

/-- Marks carried by a node itself (`node.marks` in the source). -/
def nodeMarks : PMNode → List String
  | .text _ m => m
  | .elem _ m => m

/-! ## Fragment.cut and the per-step deleted-length computation -/

mutual
/-- ProseMirror `Node.cut` for a partially covered child, with `a = f - pos` and
`b = t - pos` already made child-relative by the caller: a text child is
cut to the sub-range `[a, min len b)`; an element child has its content
cut between `a - 1` and `min contentSize (b - 1)` (ProseMirror
`Fragment.cut` gives an empty fragment when the upper bound does not
exceed the lower one). -/
def cutNode (a b : Nat) : PMNode → PMNode
  | .text len m => PMNode.text (min len b - a) m
  | .elem cc m =>
      PMNode.elem
        (if min (fragSize cc) (b - 1) ≤ a - 1 then .nil
         else fragCutGo (a - 1) (min (fragSize cc) (b - 1)) 0 cc) m
/-- One pass of ProseMirror `Fragment.cut(from, to)`: iterate the
children while the running position is below `t`; a child ending at or
before `f` is skipped; a child only partially covered is cut. -/
def fragCutGo (f t pos : Nat) : PMFrag → PMFrag
  | .nil => .nil
  | .cons c rest =>
    if t ≤ pos then .nil
    else
      let e := pos + nodeSize c
      if e ≤ f then fragCutGo f t e rest
      else
        let c' := if pos < f ∨ t < e then cutNode (f - pos) (t - pos) c else c
        .cons c' (fragCutGo f t e rest)
end

/-- ProseMirror `Fragment.cut(f, t)`; an empty fragment when `t ≤ f`.
This is the content of `doc.slice(f, t)` (source line 321) when the two
endpoints resolve at shared depth 0, as they do at top-level node
boundaries. -/
def fragCut (f t : Nat) (frag : PMFrag) : PMFrag :=
  if t ≤ f then .nil else fragCutGo f t 0 frag

/-- Accumulator form of the `slice.content.forEach` loop at source lines
323-329: each top-level child of the slice content that does not itself
carry the insertion mark contributes its full `nodeSize` to `delCount`. -/
def stepDelCountGo (delCount : Nat) : PMFrag → Nat
  | .nil => delCount
  | .cons n rest =>
      stepDelCountGo
        (if MARK_INSERTION ∈ nodeMarks n then delCount else delCount + nodeSize n) rest

/-- The `delCount` the code computes for one step's slice content. -/
def stepDelCount (sliceContent : PMFrag) : Nat := stepDelCountGo 0 sliceContent

/-- Per-step deleted-length accounting (source lines 318-330): when the
step removes a nonempty range, `delCount` is computed over the slice of
the pre-step document for `[fromPos, toPos)`. -/
def delCountOfStep (preDoc : PMFrag) (fromPos toPos : Nat) : Nat :=
  if fromPos ≠ toPos then stepDelCount (fragCut fromPos toPos preDoc) else 0

/-- Amended-claim reading of `delCount`: the sum of the sizes of the
TOP-LEVEL children of the slice content, excluding exactly those
children that themselves carry the insertion mark. -/
def topRetainSum : PMFrag → Nat
  | .nil => 0
  | .cons n rest =>
      (if MARK_INSERTION ∈ nodeMarks n then 0 else nodeSize n) + topRetainSum rest

mutual
/-- Original-claim reading of `delCount`: the sum of the sizes of all
LEAF nodes of the slice content, excluding leaves that carry the
insertion mark (a node is a leaf when its content is empty, the
criterion the code itself uses in `travelContent`). -/
def nodeLeafDelCount : PMNode → Nat
  | .text len m => if MARK_INSERTION ∈ m then 0 else len
  | .elem c m =>
      if 0 < fragSize c then fragLeafDelCount c
      else if MARK_INSERTION ∈ m then 0 else fragSize c + 2
def fragLeafDelCount : PMFrag → Nat
  | .nil => 0
  | .cons n rest => nodeLeafDelCount n + fragLeafDelCount rest
end

/-! ## travelContent: skip steps and the discard accounting -/

mutual
/-- Visit of one node in `travelContent` (source lines 383-399):
a node with nonempty content is recursed into with `parentOffset =
start` (the code does not add 1 for the opening token); a childless node
carrying the insertion mark yields a skip step over
`[start - addedEmptyOffset, end - addedEmptyOffset)` and increases the
accumulated `addedEmptyOffset` by its size.  Returns the emitted skip
ranges and the updated `addedEmptyOffset`. -/
def travelNode (n : PMNode) (start ae : Nat) : List (Int × Int) × Nat :=
  match n with
  | .text len m =>
      if MARK_INSERTION ∈ m then
        ([((start : Int) - (ae : Int), ((start + len : Nat) : Int) - (ae : Int))], ae + len)
      else ([], ae)
  | .elem c m =>
      if 0 < fragSize c then travelFrag c start ae
      else if MARK_INSERTION ∈ m then
        ([((start : Int) - (ae : Int),
           ((start + (fragSize c + 2) : Nat) : Int) - (ae : Int))], ae + (fragSize c + 2))
      else ([], ae)
/-- The `travelContent` recursion over a fragment: children are visited left to right,
the child at cumulative offset `off` starting at `parentOffset + off`. -/
def travelFrag (content : PMFrag) (parentOffset ae : Nat) : List (Int × Int) × Nat :=
  match content with
  | .nil => ([], ae)
  | .cons n rest =>
      let r := travelNode n parentOffset ae
      let r2 := travelFrag rest (parentOffset + nodeSize n) r.2
      (r.1 ++ r2.1, r2.2)
end

mutual
/-- Total size of the discard spans of a fragment: the childless nodes
carrying the insertion mark, exactly the nodes for which `travelContent`
runs `reAddOffset -= node.nodeSize`. -/
def nodeDiscardSize : PMNode → Nat
  | .text len m => if MARK_INSERTION ∈ m then len else 0
  | .elem c m =>
      if 0 < fragSize c then fragDiscardSize c
      else if MARK_INSERTION ∈ m then fragSize c + 2 else 0
def fragDiscardSize : PMFrag → Nat
  | .nil => 0
  | .cons n rest => nodeDiscardSize n + fragDiscardSize rest
end

/-- Fragment concatenation. -/
def fragAppend : PMFrag → PMFrag → PMFrag
  | .nil, g => g
  | .cons n rest, g => .cons n (fragAppend rest g)

mutual
/-- The retained content of a node: the node with its discard leaf spans
(childless insertion-marked nodes) removed. -/
def removeNodeD : PMNode → PMFrag
  | .text len m =>
      if MARK_INSERTION ∈ m then .nil else .cons (.text len m) .nil
  | .elem c m =>
      if 0 < fragSize c then .cons (.elem (removeFragD c) m) .nil
      else if MARK_INSERTION ∈ m then .nil else .cons (.elem c m) .nil
/-- The retained content of a fragment (the spec's "retained" content of
the inverted step: everything except the discard spans). -/
def removeFragD : PMFrag → PMFrag
  | .nil => .nil
  | .cons n rest => fragAppend (removeNodeD n) (removeFragD rest)
end

/-! ## Lemmas about the fragment computations -/

theorem stepDelCountGo_eq : ∀ (acc : Nat) (f : PMFrag),
    stepDelCountGo acc f = acc + topRetainSum f
  | _, .nil => by simp [stepDelCountGo, topRetainSum]
  | acc, .cons n rest => by
      by_cases h : MARK_INSERTION ∈ nodeMarks n
      · simp [stepDelCountGo, topRetainSum, h, stepDelCountGo_eq acc rest]
      · simp [stepDelCountGo, topRetainSum, h, stepDelCountGo_eq (acc + nodeSize n) rest]
        omega

theorem fragSize_append : ∀ (a b : PMFrag),
    fragSize (fragAppend a b) = fragSize a + fragSize b
  | .nil, b => by simp [fragAppend, fragSize]
  | .cons n rest, b => by
      simp [fragAppend, fragSize, fragSize_append rest b]
      omega

mutual
theorem travelNode_ae : ∀ (n : PMNode) (start ae : Nat),
    (travelNode n start ae).2 = ae + nodeDiscardSize n
  | .text _ m, _, _ => by
      by_cases h : MARK_INSERTION ∈ m <;> simp [travelNode, nodeDiscardSize, h]
  | .elem c m, start, ae => by
      by_cases hc : 0 < fragSize c
      · simp [travelNode, nodeDiscardSize, hc, travelFrag_ae c start ae]
      · by_cases h : MARK_INSERTION ∈ m <;> simp [travelNode, nodeDiscardSize, hc, h]
theorem travelFrag_ae : ∀ (f : PMFrag) (p ae : Nat),
    (travelFrag f p ae).2 = ae + fragDiscardSize f
  | .nil, _, _ => by simp [travelFrag, fragDiscardSize]
  | .cons n rest, p, ae => by
      have h1 := travelNode_ae n p ae
      have h2 := travelFrag_ae rest (p + nodeSize n) (travelNode n p ae).2
      simp only [travelFrag, fragDiscardSize]
      omega
end

mutual
theorem removeNodeD_size : ∀ (n : PMNode),
    fragSize (removeNodeD n) + nodeDiscardSize n = nodeSize n
  | .text len m => by
      by_cases h : MARK_INSERTION ∈ m <;>
        simp [removeNodeD, nodeDiscardSize, nodeSize, fragSize, h]
  | .elem c m => by
      by_cases hc : 0 < fragSize c
      · have h := removeFragD_size c
        simp [removeNodeD, nodeDiscardSize, nodeSize, fragSize, hc]
        omega
      · by_cases h : MARK_INSERTION ∈ m <;>
          simp [removeNodeD, nodeDiscardSize, nodeSize, fragSize, hc, h]
theorem removeFragD_size : ∀ (f : PMFrag),
    fragSize (removeFragD f) + fragDiscardSize f = fragSize f
  | .nil => by simp [removeFragD, fragDiscardSize, fragSize]
  | .cons n rest => by
      have h1 := removeNodeD_size n
      have h2 := removeFragD_size rest
      simp only [removeFragD, fragDiscardSize, fragSize, fragSize_append]
      omega
end

/-- The concrete pre-step document used to settle claim C1: two element
nodes (for instance two paragraphs), the first containing a text leaf of
size 2 that carries the insertion mark, the second a plain text leaf of
size 2.  A range-replacement step removing `[0, 4)` removes exactly the
first element node. -/
def c1PreDoc : PMFrag :=
  .cons (.elem (.cons (.text 2 [MARK_INSERTION]) .nil) [])
    (.cons (.elem (.cons (.text 2 []) .nil) []) .nil)

/-- Claim C1, counterexample: for the range-replacement step `(0, 4, ∅)`
on `c1PreDoc`, the code computes `delCount = 4` (the unmarked element
child counts with its full size), while the sum of the sizes of the leaf
nodes in `[0, 4)` excluding insertion-marked leaves is `0` (the only
leaf there carries the insertion mark).  The claim asserts the two are
equal; they are not. -/
theorem delCount_nested_leaf_counterexample :
    delCountOfStep c1PreDoc 0 4 = 4 ∧
    fragLeafDelCount (fragCut 0 4 c1PreDoc) = 0 ∧
    delCountOfStep c1PreDoc 0 4 ≠ fragLeafDelCount (fragCut 0 4 c1PreDoc) := by
  refine ⟨by decide, by decide, by decide⟩

/-- Claim C1 (amended): for every range-replacement step with
`toPos > fromPos`, the computed `delCount` equals the sum of the sizes
of the TOP-LEVEL child nodes of the slice content for
`[fromPos, toPos)` of the pre-step document, excluding exactly those
children that themselves carry the insertion mark; a leaf nested inside
a non-leaf child is counted or excluded with its parent, not according
to its own marks. -/
theorem delCountOfStep_topLevel (preDoc : PMFrag) (fromPos toPos : Nat)
    (h : fromPos < toPos) :
    delCountOfStep preDoc fromPos toPos = topRetainSum (fragCut fromPos toPos preDoc) := by
  have hne : fromPos ≠ toPos := Nat.ne_of_lt h
  simp [delCountOfStep, hne, stepDelCount, stepDelCountGo_eq]

/-- Witness for the amended claim C1 at the concrete step `(0, 4, ∅)`
on `c1PreDoc`. -/
theorem delCountOfStep_topLevel_witness :
    delCountOfStep c1PreDoc 0 4 = topRetainSum (fragCut 0 4 c1PreDoc) ∧
    topRetainSum (fragCut 0 4 c1PreDoc) = 4 :=
  ⟨delCountOfStep_topLevel c1PreDoc 0 4 (by decide), by decide⟩

/-! ## Character-level operational model of the inline document

The scenarios the claims are settled on stay inside one text block, so
the operational document is the block's inline content: one mark-name
list per character, positions relative to the block start.  ReplaceStep,
addMark and removeMark are position-based, so this view is exact for
inline content. -/

/-- An inline document at character granularity. -/
abbrev CharDoc := List (List String)

/-- The content of `doc.slice(f, t)` for an inline range. -/
def charSlice (d : CharDoc) (f t : Nat) : CharDoc :=
  (d.drop f).take (t - f)

/-- View an inline character list as a ProseMirror fragment of size-1
text leaves (the representation ProseMirror itself uses whenever
adjacent characters carry different mark sets). -/
def charsToFrag : CharDoc → PMFrag
  | [] => .nil
  | ms :: rest => .cons (.text 1 ms) (charsToFrag rest)

/-- A primitive document operation issued by the code on a transaction.
Positions are integers, as in JS. -/
inductive EdOp where
  | replace (f t : Int) (ins : CharDoc)
  | addMark (f t : Int) (name : String)
  | removeMark (f t : Int) (name : String)
  | setSelection (pos : Int)
deriving DecidableEq

/-- ProseMirror `tr.addMark(f, t, mark)` on inline content: every
character in `[f, t)` gains the mark (marks are identified by name). -/
def addMarkChars (d : CharDoc) (f t : Nat) (name : String) : CharDoc :=
  d.mapIdx (fun i ms =>
    if f ≤ i ∧ i < t then (if name ∈ ms then ms else ms ++ [name]) else ms)

/-- ProseMirror `tr.removeMark(f, t, markType)` on inline content. -/
def removeMarkChars (d : CharDoc) (f t : Nat) (name : String) : CharDoc :=
  d.mapIdx (fun i ms => if f ≤ i ∧ i < t then ms.filter (fun x => !(x == name)) else ms)

/-- Apply one primitive operation to the inline document. -/
def applyEdOp (d : CharDoc) : EdOp → CharDoc
  | .replace f t ins => d.take f.toNat ++ ins ++ d.drop t.toNat
  | .addMark f t name => addMarkChars d f.toNat t.toNat name
  | .removeMark f t name => removeMarkChars d f.toNat t.toNat name
  | .setSelection _ => d

/-- Apply a list of operations left to right; since every step of the
accumulated transaction is applied in order when the code commits, the
final document is this fold. -/
def applyEdOps (d : CharDoc) (ops : List EdOp) : CharDoc :=
  ops.foldl applyEdOp d

/-! ## The Accept/Reject Resolver (`changeTrack`, source lines 120-171) -/

/-- One entry returned by `getMarksBetween`: a range and one mark name. -/
structure MarkRangeE where
  rFrom : Nat
  rTo : Nat
  markName : String
deriving DecidableEq

/-- tiptap `getMarksBetween(f, t, doc)` at character granularity: every
node (here: character) overlapping `[f, t)` contributes one entry per
mark it carries.  The degenerate `f = t` call only arises in
`changeTrack` for an accept-all on an empty document, where the real
helper also returns no entries. -/
def getMarksBetween (f t : Nat) (doc : CharDoc) : List MarkRangeE :=
  if f = t then []
  else ((List.range doc.length).filter (fun i => decide (f ≤ i) && decide (i < t))).flatMap
    (fun i => (doc.getD i []).map (fun name => ⟨i, i + 1, name⟩))

/-- Marks active at a collapsed caret: `$from.marks()` — the marks of
the character before the caret, or of the first character when the caret
is at the block start (stored marks are not modelled). -/
def caretMarks (doc : CharDoc) (pos : Nat) : List String :=
  if pos = 0 then doc.getD 0 [] else doc.getD (pos - 1) []

/-- Left end of the maximal run of characters carrying `name` that ends
at `p` (exclusive scan below `p`). -/
def runStart (doc : CharDoc) (name : String) : Nat → Nat
  | 0 => 0
  | p + 1 => if name ∈ doc.getD p [] then runStart doc name p else p + 1

/-- Fuel-driven right scan for the end of a mark run. -/
def runEndGo (doc : CharDoc) (name : String) : Nat → Nat → Nat
  | 0, p => p
  | fuel + 1, p => if name ∈ doc.getD p [] then runEndGo doc name fuel (p + 1) else p

/-- Right end (exclusive) of the maximal run of characters carrying
`name` that starts at `p`. -/
def runEnd (doc : CharDoc) (name : String) (p : Nat) : Nat :=
  runEndGo doc name (doc.length - p) p

/-- tiptap `getMarkRange($pos, type)`: defined when the character at the
caret carries the mark, in which case it is the maximal surrounding run
carrying the mark. -/
def markRunAt (doc : CharDoc) (pos : Nat) (name : String) : Option (Nat × Nat) :=
  if name ∈ doc.getD pos [] then some (runStart doc name pos, runEnd doc name pos) else none

/-- Scope selection for a collapsed caret (source lines 126-137): the
insertion mark range when an insertion mark is active at the caret,
otherwise the deletion mark range when a deletion mark is active,
otherwise nothing. -/
def caretScopeRange (doc : CharDoc) (pos : Nat) : Option (Nat × Nat) :=
  if MARK_INSERTION ∈ caretMarks doc pos then markRunAt doc pos MARK_INSERTION
  else if MARK_DELETION ∈ caretMarks doc pos then markRunAt doc pos MARK_DELETION
  else none

/-- The four resolver commands (source `TRACK_COMMAND_TYPE`, line 17). -/
inductive TRACK_COMMAND_TYPE where
  | accept | acceptAll | reject | rejectAll
deriving DecidableEq

/-- The filter at source line 145: keep only deletion and insertion
mark ranges. -/
def isTrackMarkRange (r : MarkRangeE) : Bool :=
  r.markName == MARK_DELETION || r.markName == MARK_INSERTION

/-- The per-range resolution loop (source lines 153-163): accept of an
insertion range or reject of a deletion range strips both marks over the
offset-shifted range and leaves the offset unchanged; any other case
deletes the offset-shifted range and grows the offset by the range
length.  Returns the emitted operations and the final offset. -/
def resolveRanges (opType : TRACK_COMMAND_TYPE) (offset : Nat) :
    List MarkRangeE → List EdOp × Nat
  | [] => ([], offset)
  | r :: rest =>
      if (opType = .accept ∧ r.markName = MARK_INSERTION) ∨
         (opType = .reject ∧ r.markName = MARK_DELETION) then
        let rec1 := resolveRanges opType offset rest
        (EdOp.removeMark ((r.rFrom : Int) - (offset : Int)) ((r.rTo : Int) - (offset : Int))
           MARK_INSERTION ::
         EdOp.removeMark ((r.rFrom : Int) - (offset : Int)) ((r.rTo : Int) - (offset : Int))
           MARK_DELETION :: rec1.1, rec1.2)
      else
        let rec1 := resolveRanges opType (offset + (r.rTo - r.rFrom)) rest
        (EdOp.replace ((r.rFrom : Int) - (offset : Int)) ((r.rTo : Int) - (offset : Int)) []
           :: rec1.1, rec1.2)

/-- The `changeTrack` entry point (source lines 120-171): collects the
mark ranges in scope, filters them to insertion/deletion, and either
returns without committing (`none`) or commits the resolution
transaction (`some ops`). -/
def changeTrack (opType : TRACK_COMMAND_TYPE) (doc : CharDoc) (selFrom selTo : Nat) :
    Option (List EdOp) :=
  let markRanges :=
    if (opType = .accept ∨ opType = .reject) ∧ selFrom = selTo then
      match caretScopeRange doc selFrom with
      | some r => getMarksBetween r.1 r.2 doc
      | none => []
    else if opType = .acceptAll ∨ opType = .rejectAll then
      getMarksBetween 0 doc.length doc
    else
      getMarksBetween selFrom selTo doc
  let opType2 := if opType = .acceptAll then TRACK_COMMAND_TYPE.accept
                 else if opType = .rejectAll then TRACK_COMMAND_TYPE.reject
                 else opType
  let filtered := markRanges.filter isTrackMarkRange
  if filtered.isEmpty then none
  else
    let ops := (resolveRanges opType2 0 filtered).1
    if ops.isEmpty then none else some ops

/-- The document after a `changeTrack` invocation: unchanged when no
transaction is committed. -/
def changeTrackRun (opType : TRACK_COMMAND_TYPE) (doc : CharDoc)
    (selFrom selTo : Nat) : CharDoc :=
  match changeTrack opType doc selFrom selTo with
  | none => doc
  | some ops => applyEdOps doc ops

/-! ## Claims C4, C7, C10 -/

/-- Whether the resolver confirms a range (accept of an insertion range,
or reject of a deletion range) rather than discarding it. -/
def isConfirmRange (opType : TRACK_COMMAND_TYPE) (r : MarkRangeE) : Bool :=
  decide ((opType = .accept ∧ r.markName = MARK_INSERTION) ∨
          (opType = .reject ∧ r.markName = MARK_DELETION))

/-- Total length of the ranges the resolver physically removes. -/
def discardedLenSum (opType : TRACK_COMMAND_TYPE) (rs : List MarkRangeE) : Nat :=
  ((rs.filter (fun r => !(isConfirmRange opType r))).map (fun r => r.rTo - r.rFrom)).sum

theorem discardedLenSum_cons (opType : TRACK_COMMAND_TYPE) (r : MarkRangeE)
    (rest : List MarkRangeE) :
    discardedLenSum opType (r :: rest) =
      (if isConfirmRange opType r then 0 else r.rTo - r.rFrom) +
        discardedLenSum opType rest := by
  by_cases h : isConfirmRange opType r <;>
    simp [discardedLenSum, List.filter_cons, h]

theorem resolveRanges_offset (opType : TRACK_COMMAND_TYPE) :
    ∀ (rs : List MarkRangeE) (off : Nat),
      (resolveRanges opType off rs).2 = off + discardedLenSum opType rs
  | [], off => by simp [resolveRanges, discardedLenSum]
  | r :: rest, off => by
      have hrec1 := resolveRanges_offset opType rest off
      have hrec2 := resolveRanges_offset opType rest (off + (r.rTo - r.rFrom))
      by_cases h : (opType = .accept ∧ r.markName = MARK_INSERTION) ∨
                   (opType = .reject ∧ r.markName = MARK_DELETION)
      · have hc : isConfirmRange opType r = true := by simp [isConfirmRange, h]
        simp [resolveRanges, h, discardedLenSum_cons, hc, hrec1]
      · have hc : isConfirmRange opType r = false := by
          simp only [isConfirmRange, decide_eq_false_iff_not]
          exact h
        simp [resolveRanges, h, discardedLenSum_cons, hc, hrec2]
        omega

/-- Claim C4: each collected mark range, processed left to right with a
running shrink offset starting at 0, is confirmed (both marks stripped
from the offset-shifted range, offset unchanged) exactly when the kind
is accept and the range is an insertion or the kind is reject and the
range is a deletion, and is otherwise physically removed with the offset
growing by the range length; consequently the offset after the whole
pass is the total length of the discarded ranges. -/
theorem changeTrack_per_range_resolution (opType : TRACK_COMMAND_TYPE) (off : Nat)
    (r : MarkRangeE) (rest rs : List MarkRangeE) :
    (resolveRanges opType off (r :: rest) =
      if isConfirmRange opType r then
        (EdOp.removeMark ((r.rFrom : Int) - (off : Int)) ((r.rTo : Int) - (off : Int))
           MARK_INSERTION ::
         EdOp.removeMark ((r.rFrom : Int) - (off : Int)) ((r.rTo : Int) - (off : Int))
           MARK_DELETION ::
         (resolveRanges opType off rest).1,
         (resolveRanges opType off rest).2)
      else
        (EdOp.replace ((r.rFrom : Int) - (off : Int)) ((r.rTo : Int) - (off : Int)) [] ::
         (resolveRanges opType (off + (r.rTo - r.rFrom)) rest).1,
         (resolveRanges opType (off + (r.rTo - r.rFrom)) rest).2)) ∧
    (resolveRanges opType 0 rs).2 = discardedLenSum opType rs := by
  constructor
  · by_cases h : (opType = .accept ∧ r.markName = MARK_INSERTION) ∨
                 (opType = .reject ∧ r.markName = MARK_DELETION)
    · simp [resolveRanges, isConfirmRange, h]
    · simp [resolveRanges, isConfirmRange, h]
  · simpa using resolveRanges_offset opType rs 0

/-- Whether `[f, t)` contains any character carrying the insertion or
deletion mark, in the form the resolver's collection reports it. -/
def rangeHasTrackMark (doc : CharDoc) (f t : Nat) : Bool :=
  (getMarksBetween f t doc).any isTrackMarkRange

/-- Claim C7: accepting over a target range with no insertion or
deletion mark ranges is a no-op — `changeTrack` commits no transaction
and the document is unchanged. -/
theorem changeTrack_empty_scope_noop (doc : CharDoc) (selFrom selTo : Nat)
    (hne : selFrom ≠ selTo)
    (h : rangeHasTrackMark doc selFrom selTo = false) :
    changeTrack .accept doc selFrom selTo = none ∧
    changeTrackRun .accept doc selFrom selTo = doc := by
  have hfilter : (getMarksBetween selFrom selTo doc).filter isTrackMarkRange = [] := by
    rw [List.filter_eq_nil_iff]
    intro a ha
    have h2 := List.any_eq_false.mp (by simpa [rangeHasTrackMark] using h) a ha
    simpa using h2
  have hnone : changeTrack .accept doc selFrom selTo = none := by
    simp [changeTrack, hne, hfilter]
  exact ⟨hnone, by simp [changeTrackRun, hnone]⟩

/-- Witness for claim C7 on a concrete two-character unmarked document. -/
theorem changeTrack_empty_scope_noop_witness :
    changeTrack .accept [[], []] 0 1 = none ∧
    changeTrackRun .accept [[], []] 0 1 = [[], []] :=
  changeTrack_empty_scope_noop [[], []] 0 1 (by decide) (by decide)

/-- Claim C10: at a collapsed caret the resolver scopes to the insertion
mark range whenever an insertion mark is active there, and consults the
deletion mark range only when no insertion mark is active. -/
theorem caretScope_insertion_precedence (doc : CharDoc) (pos : Nat) :
    (MARK_INSERTION ∈ caretMarks doc pos →
      caretScopeRange doc pos = markRunAt doc pos MARK_INSERTION) ∧
    (MARK_INSERTION ∉ caretMarks doc pos → MARK_DELETION ∈ caretMarks doc pos →
      caretScopeRange doc pos = markRunAt doc pos MARK_DELETION) := by
  constructor
  · intro h
    simp [caretScopeRange, h]
  · intro h1 h2
    simp [caretScopeRange, h1, h2]

/-- The concrete document for the claim C10 witness: two characters
carrying both the insertion and the deletion mark, caret at position 1
(both marks active there). -/
def c10Doc : CharDoc :=
  [[MARK_INSERTION, MARK_DELETION], [MARK_INSERTION, MARK_DELETION]]

/-- Witness for claim C10: with both marks active at the caret the scope
is the insertion run `[0, 2)`. -/
theorem caretScope_insertion_precedence_witness :
    caretScopeRange c10Doc 1 = markRunAt c10Doc 1 MARK_INSERTION ∧
    markRunAt c10Doc 1 MARK_INSERTION = some (0, 2) ∧
    MARK_DELETION ∈ caretMarks c10Doc 1 :=
  ⟨(caretScope_insertion_precedence c10Doc 1).1 (by decide), by decide, by decide⟩

/-! ## Claims C6 and C9 -/

/-- Claim C6, counterexample: at epoch time 90000 ms (one and a half
minutes) the timestamp attached to a new mark is 120000 — the NEAREST
whole minute — not the minute floor 60000 the claim asserts.  At this
input the JS float computation is exact (90000/1000 = 90 and 90/60 = 1.5
are exact doubles, and Math.round(1.5) = 2). -/
theorem minuteTime_rounds_to_nearest_counterexample :
    (mkInsertionMarkAttrs sampleStorage 90000).dataOpDate = 120000 ∧
    floorMinuteMs 90000 = 60000 ∧
    (mkInsertionMarkAttrs sampleStorage 90000).dataOpDate ≠ floorMinuteMs 90000 := by
  refine ⟨by decide, by decide, by decide⟩

/-- Claim C6 (amended): every data-op-date value attached to a newly
created insertion or deletion mark is the current epoch time rounded to
the NEAREST whole minute (exact half minutes round up), expressed in
milliseconds: a multiple of 60000 within 30000 ms of the current time. -/
theorem markAttrs_date_nearest_minute (s : TrackChangeStorage) (nowMs : Nat) :
    (mkInsertionMarkAttrs s nowMs).dataOpDate = getMinuteTime nowMs ∧
    (mkDeletionMarkAttrs s nowMs).dataOpDate = getMinuteTime nowMs ∧
    getMinuteTime nowMs % 60000 = 0 ∧
    getMinuteTime nowMs ≤ nowMs + 30000 ∧
    nowMs < getMinuteTime nowMs + 30000 := by
  refine ⟨rfl, rfl, ?_, ?_, ?_⟩ <;> simp [getMinuteTime] <;> omega

/-- A storage with the status callback configured, for the claim C9
witness. -/
def c9Storage : TrackChangeStorage := ⟨true, "u", "n", true⟩

/-- Claim C9: with a status callback configured, editor creation invokes
it once with the initial enabled value; `setTrackChangeStatus b` sets the
status to `b` and invokes the callback with `b` — also when `b` equals
the current status; `toggleTrackChangeStatus` invokes it with the
flipped status. -/
theorem statusChange_callback_invocations (s : TrackChangeStorage) (b : Bool)
    (h : s.hasOnStatusChange = true) :
    onCreateCalls s = [s.enabled] ∧
    (setTrackChangeStatusModel s b).2 = [b] ∧
    (setTrackChangeStatusModel s b).1.enabled = b ∧
    (toggleTrackChangeStatusModel s).2 = [!s.enabled] ∧
    (setTrackChangeStatusModel s s.enabled).2 = [s.enabled] := by
  simp [onCreateCalls, setTrackChangeStatusModel, toggleTrackChangeStatusModel, h]

/-- Witness for claim C9: concrete storage with the callback configured
and a set call whose argument equals the current status. -/
theorem statusChange_callback_invocations_witness :
    onCreateCalls c9Storage = [c9Storage.enabled] ∧
    (setTrackChangeStatusModel c9Storage true).2 = [true] ∧
    (setTrackChangeStatusModel c9Storage true).1.enabled = true ∧
    (toggleTrackChangeStatusModel c9Storage).2 = [!c9Storage.enabled] ∧
    (setTrackChangeStatusModel c9Storage c9Storage.enabled).2 = [c9Storage.enabled] :=
  statusChange_callback_invocations c9Storage true rfl

/-! ## The Redline Transformer (`onTransaction`, source lines 290-434) -/

/-- Raw IME composition signals (source lines 98-103), read once at the
top of the hook: `isStartChineseInput` is set by a compositionstart
event and `composingStatus` is 2 after a compositionupdate event. -/
structure ImeFlags where
  isStartChineseInput : Bool
  composingStatus : Nat

/-- A step of the incoming transaction.  `isReplace` is false for a step
that is not a `ReplaceStep` instance, which both loops of the hook skip;
`slice` is the inserted content. -/
structure RStep where
  isReplace : Bool
  fromPos : Nat
  toPos : Nat
  slice : PMFrag

/-- The incoming transaction as the hook observes it: the steps, the
document before each step (`transaction.docs`), the metadata the
interception gate reads, and the reported resulting selection anchor. -/
structure PMTransaction where
  steps : List RStep
  docs : List CharDoc
  docChanged : Bool
  metaTrackManualChanged : Bool
  metaHistory : Bool
  syncMetaIsChangeOrigin : Bool
  selFrom : Nat

/-- Per-step `delCount` at character granularity (source lines 318-330):
the slice of the pre-step document for `[fromPos, toPos)`, viewed as
size-1 text leaves, summed over the leaves not carrying the insertion
mark. -/
def delCountOfCharStep (preDoc : CharDoc) (st : RStep) : Nat :=
  if st.isReplace ∧ st.fromPos ≠ st.toPos then
    stepDelCount (charsToFrag (charSlice preDoc st.fromPos st.toPos))
  else 0

/-- Rewrite processing of one step (source lines 350-417).  For a
nonempty inserted slice the range `[fromPos + reAddOffset, … + size)` is
insertion-marked (tracking on) or insertion-unmarked (tracking off) and
always deletion-unmarked.  For a real removal with tracking on, the
inverted content (`invertedStep.from = fromPos`, slice = the removed
content) is re-inserted at `fromPos + reAddOffset`, the re-inserted
range is deletion-marked, the skip steps from `travelContent` are
applied, and `reAddOffset` is decreased by each discarded leaf size and
then increased by the full inverted slice size.  Returns the emitted
operations and the updated `reAddOffset`. -/
def rewriteStep (s : TrackChangeStorage) (preDoc : CharDoc) (st : RStep)
    (reAddOffset : Int) : List EdOp × Int :=
  if ¬ st.isReplace then ([], reAddOffset)
  else
    let insOps :=
      if 0 < fragSize st.slice then
        let f : Int := (st.fromPos : Int) + reAddOffset
        let t : Int := f + (fragSize st.slice : Int)
        (if s.enabled then [EdOp.addMark f t MARK_INSERTION]
         else [EdOp.removeMark f t MARK_INSERTION]) ++ [EdOp.removeMark f t MARK_DELETION]
      else []
    if st.fromPos ≠ st.toPos ∧ s.enabled = true then
      let invFrom := st.fromPos
      let invSliceChars := charSlice preDoc st.fromPos st.toPos
      let invFrag := charsToFrag invSliceChars
      let reAddFrom : Int := (invFrom : Int) + reAddOffset
      let travelled := travelFrag invFrag invFrom 0
      let delOps :=
        [EdOp.replace reAddFrom reAddFrom invSliceChars,
         EdOp.addMark reAddFrom (reAddFrom + (fragSize invFrag : Int)) MARK_DELETION] ++
        travelled.1.map (fun p => EdOp.replace p.1 p.2 [])
      (insOps ++ delOps, reAddOffset - (travelled.2 : Int) + (fragSize invFrag : Int))
    else (insOps, reAddOffset)

/-- The rewrite loop over all steps (source lines 349-418), threading
`reAddOffset` left to right over the (step, pre-step document) pairs. -/
def rewriteSteps (s : TrackChangeStorage) :
    List (RStep × CharDoc) → Int → List EdOp
  | [], _ => []
  | (st, d) :: rest, off =>
      let r := rewriteStep s d st off
      r.1 ++ rewriteSteps s rest r.2

/-- Result of the hook on a transaction that passes the gate: the
operations of the committed rewrite and whether the deferred
focus-restore of source lines 427-433 is scheduled. -/
structure TrOutput where
  ops : List EdOp
  schedulesFocusRestore : Bool
deriving DecidableEq

/-- The `onTransaction` hook (source lines 290-434): derive the
composition flags, run the interception gate (source lines 299-304),
compute the per-step deleted lengths and the composed-edit flag, apply
the composition-gated cursor-offset suppression (source lines 339-345),
rewrite every step, and finally set the corrected selection when
tracking is enabled.  `none` means the transaction is passed through
unmodified. -/
def onTransactionModel (s : TrackChangeStorage) (ime : ImeFlags)
    (tr : PMTransaction) : Option TrOutput :=
  let isChineseStart := ime.isStartChineseInput && (ime.composingStatus == 2)
  let isChineseInputting := (!ime.isStartChineseInput) && (ime.composingStatus == 2)
  let isNormalInput := ime.composingStatus == 0
  if !tr.docChanged then none
  else if tr.metaTrackManualChanged then none
  else if tr.metaHistory then none
  else if tr.syncMetaIsChangeOrigin then none
  else if tr.steps.isEmpty then none
  else
    let pairs := tr.steps.zip tr.docs
    let posOffset0 := (pairs.map (fun p => delCountOfCharStep p.2 p.1)).sum
    let hasAddAndDelete := pairs.any (fun p =>
      p.1.isReplace && decide (0 < fragSize p.1.slice) &&
      decide (0 < delCountOfCharStep p.2 p.1))
    let posOffset :=
      if isNormalInput then (if hasAddAndDelete then posOffset0 else 0)
      else if isChineseStart then (if hasAddAndDelete then posOffset0 else 0)
      else if isChineseInputting then 0
      else posOffset0
    let rewriteOps := rewriteSteps s pairs 0
    let selOps :=
      if s.enabled then [EdOp.setSelection ((tr.selFrom : Int) + (posOffset : Int))]
      else []
    some ⟨rewriteOps ++ selOps, isChineseStart && hasAddAndDelete && s.enabled⟩

/-- The document after the hook runs.  When the hook fires the incoming
transaction has already been applied (the gate guarantees `docChanged`,
so `transaction.before` differs from the current document and the code
builds the rewrite on a fresh transaction against the current state);
`current` is that post-transaction document.  A gated-out transaction
leaves it untouched; otherwise the accumulated rewrite transaction is
committed onto it. -/
def runOnTransaction (s : TrackChangeStorage) (ime : ImeFlags)
    (tr : PMTransaction) (current : CharDoc) : CharDoc :=
  match onTransactionModel s ime tr with
  | none => current
  | some out => applyEdOps current out.ops

/-! ## Claims C2, C3, C5, C8 -/

/-- Claim C2: when a range-replacement step with `toPos > fromPos` is
processed with tracking enabled, the running `reAddOffset` grows by the
full size of the re-inserted inverted content minus the size of its
discarded (insertion-marked) leaf spans — that is, by the net size of
the retained content, stated here as the size of the inverted content
with its discard leaves removed. -/
theorem rewriteStep_reAddOffset (s : TrackChangeStorage) (preDoc : CharDoc)
    (st : RStep) (off : Int) (hrep : st.isReplace = true)
    (henabled : s.enabled = true) (hlt : st.fromPos < st.toPos) :
    (rewriteStep s preDoc st off).2 =
      off + (fragSize (removeFragD
        (charsToFrag (charSlice preDoc st.fromPos st.toPos))) : Int) := by
  have hne : st.fromPos ≠ st.toPos := Nat.ne_of_lt hlt
  have hae := travelFrag_ae (charsToFrag (charSlice preDoc st.fromPos st.toPos)) st.fromPos 0
  have hsz := removeFragD_size (charsToFrag (charSlice preDoc st.fromPos st.toPos))
  simp [rewriteStep, hrep, hne, henabled, hae]
  omega

/-- The pre-step document for the claim C2 witness: two characters, the
first carrying the insertion mark. -/
def c2Doc : CharDoc := [[MARK_INSERTION], []]

/-- A deletion step removing both characters of `c2Doc`. -/
def c2Step : RStep := ⟨true, 0, 2, .nil⟩

/-- Witness for claim C2: deleting both characters of `c2Doc` (one of
them a pending insertion) grows `reAddOffset` by 1, the net retained
size. -/
theorem rewriteStep_reAddOffset_witness :
    (rewriteStep sampleStorage c2Doc c2Step 0).2 =
      0 + (fragSize (removeFragD
        (charsToFrag (charSlice c2Doc c2Step.fromPos c2Step.toPos))) : Int) ∧
    (rewriteStep sampleStorage c2Doc c2Step 0).2 = 1 :=
  ⟨rewriteStep_reAddOffset sampleStorage c2Doc c2Step 0 rfl rfl (by decide), by decide⟩

/-- Claim C3: a transaction that changes no content, or is flagged as a
manual accept/reject result, or is an undo/redo history transaction, or
carries the collaborative-sync change-origin flag, or has no steps, is
passed through unmodified: the hook commits no replacement transaction
and the document — hence its set of insertion/deletion marks — is
unchanged, whatever the tracking state. -/
theorem onTransaction_gate_passthrough (s : TrackChangeStorage) (ime : ImeFlags)
    (tr : PMTransaction) (current : CharDoc)
    (h : tr.docChanged = false ∨ tr.metaTrackManualChanged = true ∨
         tr.metaHistory = true ∨ tr.syncMetaIsChangeOrigin = true ∨
         tr.steps = []) :
    onTransactionModel s ime tr = none ∧
    runOnTransaction s ime tr current = current := by
  have hnone : onTransactionModel s ime tr = none := by
    rcases h with h | h | h | h | h
    · simp [onTransactionModel, h]
    · cases hd : tr.docChanged <;> simp [onTransactionModel, h, hd]
    · cases hd : tr.docChanged <;> cases hm : tr.metaTrackManualChanged <;>
        simp [onTransactionModel, h, hd, hm]
    · cases hd : tr.docChanged <;> cases hm : tr.metaTrackManualChanged <;>
        cases hh : tr.metaHistory <;> simp [onTransactionModel, h, hd, hm, hh]
    · cases hd : tr.docChanged <;> cases hm : tr.metaTrackManualChanged <;>
        cases hh : tr.metaHistory <;> cases hy : tr.syncMetaIsChangeOrigin <;>
        simp [onTransactionModel, h, hd, hm, hh, hy]
  exact ⟨hnone, by simp [runOnTransaction, hnone]⟩

/-- A concrete undo/redo transaction (history metadata set) with a step
and a changed document. -/
def c3Tr : PMTransaction :=
  ⟨[⟨true, 0, 1, PMFrag.nil⟩], [[[]]], true, false, true, false, 0⟩

/-- Witness for claim C3 on the concrete history-flagged transaction. -/
theorem onTransaction_gate_passthrough_witness :
    onTransactionModel sampleStorage ⟨false, 0⟩ c3Tr = none ∧
    runOnTransaction sampleStorage ⟨false, 0⟩ c3Tr [[]] = [[]] :=
  onTransaction_gate_passthrough sampleStorage ⟨false, 0⟩ c3Tr [[]]
    (Or.inr (Or.inr (Or.inl rfl)))

/-- Whether some character of the document carries both the insertion
and the deletion mark. -/
def hasBothMarks (d : CharDoc) : Bool :=
  d.any (fun ms => decide (MARK_INSERTION ∈ ms) && decide (MARK_DELETION ∈ ms))

/-- The original document of the claim C5 scenario: five characters
`a b c d e`, with `b` and `d` pending insertions. -/
def c5Doc0 : CharDoc := [[], [MARK_INSERTION], [], [MARK_INSERTION], []]

/-- The document after the first deletion step of the scenario
(`a b` removed): `c d e` with `d` a pending insertion. -/
def c5Doc1 : CharDoc := [[], [MARK_INSERTION], []]

/-- The claim C5 scenario: one user transaction with two deletion steps,
each removing `[0, 2)` — first `a b`, then `c d` — with tracking
enabled.  `d` is a pending insertion, so its deletion must be a true
removal. -/
def c5Tr : PMTransaction :=
  ⟨[⟨true, 0, 2, PMFrag.nil⟩, ⟨true, 0, 2, PMFrag.nil⟩], [c5Doc0, c5Doc1],
   true, false, false, false, 0⟩

/-- Claim C5 evaluation: after the hook rewrites the two-step deletion
transaction of `c5Tr`, the character `d` carries BOTH the insertion and
the deletion mark — the second step's skip steps are built without the
running `reAddOffset`, so they erase the retained `c` instead of the
pending insertion `d`, which survives under the freshly added deletion
mark. -/
theorem tracked_delete_both_marks_violation :
    hasBothMarks [[]] = false ∧
    runOnTransaction sampleStorage ⟨false, 0⟩ c5Tr [[]] =
      [[MARK_DELETION], [MARK_INSERTION, MARK_DELETION], []] ∧
    hasBothMarks (runOnTransaction sampleStorage ⟨false, 0⟩ c5Tr [[]]) = true := by
  refine ⟨by decide, by decide, by decide⟩

/-- Commands issued against the editor surface outside the document
model. -/
inductive UiCmd where
  | focus
deriving DecidableEq

/-- The editing surface as the deferred callback could observe it. -/
structure EditorSurface where
  destroyed : Bool

/-- The callback handed to setTimeout at source lines 430-432: it calls
`editor.commands.focus()` unconditionally; the surface state is never
consulted. -/
def deferredFocusRestore (_surface : EditorSurface) : List UiCmd :=
  [UiCmd.focus]

/-- A composition-start composed edit: one step that both inserts one
character and removes one unmarked character. -/
def c8Tr : PMTransaction :=
  ⟨[⟨true, 0, 1, PMFrag.cons (PMNode.text 1 []) PMFrag.nil⟩], [[[]]],
   true, false, false, false, 1⟩

/-- Claim C8 evaluation: the hook schedules the deferred focus restore
for a composition-start composed edit with tracking enabled, and the
scheduled callback still issues the focus command when it fires on a
surface that has been destroyed — the restore is NOT skipped. -/
theorem deferredFocusRestore_not_skipped :
    (onTransactionModel sampleStorage ⟨true, 2⟩ c8Tr).map
      TrOutput.schedulesFocusRestore = some true ∧
    deferredFocusRestore ⟨true⟩ = [UiCmd.focus] ∧
    deferredFocusRestore ⟨true⟩ ≠ [] := by
  refine ⟨by decide, rfl, by decide⟩
